import Mathlib

/-!
Shallow embedding of the contrast-analysis pipeline of the
`contrast-detective` repository (`src/services/contrastAnalyzer.ts`,
duplicated verbatim in `src/popup.js`), together with the two
threshold-filter call sites (`src/popup.js` `filterAndRedrawWarnings`
and `src/components/AnalysisDisplay.tsx` `filteredResults`).

Modelling conventions:
* JavaScript numbers holding pixel channels, coordinates and sizes are
  embedded as `ℕ`; real-valued quantities (luminance, contrast ratio,
  severity score) are embedded as `ℝ`, the real-number idealisation of
  IEEE doubles.
* `Math.sqrt` in the k-means distance comparison is eliminated: the
  source only compares `Math.sqrt d1 < Math.sqrt d2`, and square root
  is strictly monotone on nonnegative reals, so we compare the exact
  squared distances (integers) directly.
* `Math.round(sum / length)` on a nonnegative JavaScript number is
  `⌊sum/length + 1/2⌋`, embedded exactly on naturals as
  `(2*sum + len) / (2*len)` with truncating division.
* `minDistance = Infinity` in the source makes the first centroid
  always win the initial comparison; the embedding seeds the argmin
  scan with the distance to the first centroid, which is equivalent
  because every actual distance is finite.
-/

namespace ContrastDetective

/-- `RGBColor` from `src/types.ts`: `{r, g, b}`, integer channels. -/
structure RGBColor where
  r : ℕ
  g : ℕ
  b : ℕ
deriving DecidableEq, Repr

/-- The `ImageData` abstraction the pipeline consumes: `width`,
`height`, and a flat row-major RGBA byte buffer `data`
(4 entries per pixel). -/
structure ImageData where
  width : ℕ
  height : ℕ
  data : List ℕ
deriving DecidableEq, Repr

/-- `sRGBToLinear` (contrastAnalyzer.ts, lines 8–11):
`c = component / 255`; `c / 12.92` when `c ≤ 0.03928`, else
`((c + 0.055) / 1.055) ^ 2.4`. -/
noncomputable def sRGBToLinear (component : ℝ) : ℝ :=
  let c := component / 255
  if c ≤ 0.03928 then c / 12.92 else ((c + 0.055) / 1.055) ^ (2.4 : ℝ)

/-- `getRelativeLuminance` (contrastAnalyzer.ts, lines 13–18). -/
noncomputable def getRelativeLuminance (r g b : ℝ) : ℝ :=
  0.2126 * sRGBToLinear r + 0.7152 * sRGBToLinear g + 0.0722 * sRGBToLinear b

/-- `getContrastRatio` (contrastAnalyzer.ts, lines 20–34): `21` for
componentwise-identical colors, otherwise
`(lighter + 0.05) / (darker + 0.05)` on relative luminances. -/
noncomputable def getContrastRatio (rgb1 rgb2 : RGBColor) : ℝ :=
  if rgb1.r = rgb2.r ∧ rgb1.g = rgb2.g ∧ rgb1.b = rgb2.b then 21
  else
    let l1 := getRelativeLuminance rgb1.r rgb1.g rgb1.b
    let l2 := getRelativeLuminance rgb2.r rgb2.g rgb2.b
    let lighter := max l1 l2
    let darker := min l1 l2
    (lighter + 0.05) / (darker + 0.05)

/-- `uiContrastViolationScore` (contrastAnalyzer.ts, lines 40–46):
`0` for `ratio ≥ 3`, `1` for `ratio ≤ 1`, cosine interpolation in
between. -/
noncomputable def uiContrastViolationScore (ratio : ℝ) : ℝ :=
  if 3.0 ≤ ratio then 0
  else if ratio ≤ 1.0 then 1.0
  else
    let t := (ratio - 1.0) / (3.0 - 1.0)
    0.5 * (1 + Real.cos (Real.pi * t))

/-- Squared Euclidean distance in RGB space (the radicand of the
`Math.sqrt` call in `simpleKMeans`, contrastAnalyzer.ts lines 64–68). -/
def sqDist (color centroid : RGBColor) : ℤ :=
  ((color.r : ℤ) - centroid.r) ^ 2 + ((color.g : ℤ) - centroid.g) ^ 2 +
    ((color.b : ℤ) - centroid.b) ^ 2

/-- Argmin scan over the remaining centroids (contrastAnalyzer.ts lines
59–74): keeps the current best index on ties (`<` is strict). -/
def closestClusterAux (color : RGBColor) :
    List RGBColor → ℕ → ℕ → ℤ → ℕ
  | [], _, best, _ => best
  | centroid :: rest, i, best, bestDist =>
      let d := sqDist color centroid
      if d < bestDist then closestClusterAux color rest (i + 1) i d
      else closestClusterAux color rest (i + 1) best bestDist

/-- Index of the closest centroid to `color`; the source seeds
`minDistance = Infinity`, so the first centroid always wins the first
comparison. -/
def closestCluster (color : RGBColor) : List RGBColor → ℕ
  | [] => 0
  | centroid :: rest => closestClusterAux color rest 1 0 (sqDist color centroid)

/-- The cluster assigned to centroid index `i`: colors whose closest
centroid is `i`, in input order (the source pushes in `forEach` order). -/
def clusterOf (colors centroids : List RGBColor) (i : ℕ) : List RGBColor :=
  colors.filter (fun c => decide (closestCluster c centroids = i))

/-- `Math.round(sum / len)` for nonnegative values: `⌊sum/len + 1/2⌋`,
computed exactly on naturals. -/
def roundDiv (sum len : ℕ) : ℕ :=
  (2 * sum + len) / (2 * len)

/-- One iteration body of `simpleKMeans` (contrastAnalyzer.ts lines
57–90): recompute all `k` centroids; an empty cluster keeps its old
centroid, a nonempty one becomes the rounded componentwise mean. -/
def kmeansStep (k : ℕ) (colors centroids : List RGBColor) : List RGBColor :=
  (List.range k).map (fun i =>
    let cluster := clusterOf colors centroids i
    if cluster.length = 0 then centroids.getD i ⟨0, 0, 0⟩
    else
      { r := roundDiv (cluster.map RGBColor.r).sum cluster.length
        g := roundDiv (cluster.map RGBColor.g).sum cluster.length
        b := roundDiv (cluster.map RGBColor.b).sum cluster.length })

/-- The bounded iteration of `simpleKMeans`: up to `fuel` steps,
stopping early when the centroid list is unchanged (the
`JSON.stringify` equality check on lines 87–89 is list equality of the
centroid records). -/
def kmeansIter (k : ℕ) (colors : List RGBColor) :
    ℕ → List RGBColor → List RGBColor
  | 0, centroids => centroids
  | fuel + 1, centroids =>
      let newCentroids := kmeansStep k colors centroids
      if newCentroids = centroids then centroids
      else kmeansIter k colors fuel newCentroids

/-- `simpleKMeans` (contrastAnalyzer.ts lines 51–94): identity when
`colors.length ≤ k`, otherwise Lloyd iteration (max 10 rounds) from the
first `k` colors. -/
def simpleKMeans (colors : List RGBColor) (k : ℕ) : List RGBColor :=
  if colors.length ≤ k then colors
  else kmeansIter k colors 10 (colors.take k)

/-- The stride-2 loop offsets `0, 2, 4, …` below `n`
(`for (d = 0; d < n; d += 2)`). -/
def sampleOffsets (n : ℕ) : List ℕ :=
  (List.range ((n + 1) / 2)).map (fun i => 2 * i)

/-- Flat RGBA buffer index of pixel `(px, py)`:
`(py * imageWidth + px) * 4` (contrastAnalyzer.ts line 107). -/
def pixelIndex (img : ImageData) (px py : ℕ) : ℕ :=
  (py * img.width + px) * 4

/-- The buffer indices the sampling loop of `extractDominantColors`
reads from (contrastAnalyzer.ts lines 101–115): stride-2 offsets in
both axes, skipping candidates whose pixel coordinates fall outside
the bitmap (`px >= imageWidth || py >= imageData.height`). -/
def sampledPixelIndices (img : ImageData) (x y width height : ℕ) : List ℕ :=
  (sampleOffsets height).flatMap (fun dy =>
    (sampleOffsets width).filterMap (fun dx =>
      let px := x + dx
      let py := y + dy
      if img.width ≤ px ∨ img.height ≤ py then none
      else some (pixelIndex img px py)))

/-- Read the R, G, B bytes at buffer index `idx` (`data[idx]`,
`data[idx+1]`, `data[idx+2]`). -/
def pixelAt (img : ImageData) (idx : ℕ) : RGBColor :=
  { r := img.data.getD idx 0
    g := img.data.getD (idx + 1) 0
    b := img.data.getD (idx + 2) 0 }

/-- `extractDominantColors` (contrastAnalyzer.ts lines 96–120): sample
the region with stride 2, return `[]` when no pixel was sampled, else
cluster the samples with `simpleKMeans`. -/
def extractDominantColors (img : ImageData) (x y width height maxColors : ℕ) :
    List RGBColor :=
  let colors := (sampledPixelIndices img x y width height).map (pixelAt img)
  if colors.length = 0 then [] else simpleKMeans colors maxColors

/-- The record `analyzeUIRegion` returns (before `gridAnalysis` attaches
`x`, `y`). -/
structure RegionResult where
  score : ℝ
  ratio : ℝ
  colors : List RGBColor
  compliant : Bool

/-- `AnalysisResult` from `src/types.ts`: the region fields plus the
block origin `x`, `y` spread in by `gridAnalysis`. -/
structure AnalysisResult extends RegionResult where
  x : ℕ
  y : ℕ

/-- `analyzeUIRegion` (contrastAnalyzer.ts lines 126–142): fewer than
two dominant colors means the block is treated as compliant with
`score = 0`, `ratio = 21`; otherwise the contrast ratio of the two
cluster colors decides compliance at the 3.0 WCAG AA baseline. -/
noncomputable def analyzeUIRegion (img : ImageData) (x y width height : ℕ) :
    RegionResult :=
  let colors := extractDominantColors img x y width height 2
  if colors.length < 2 then
    { score := 0, ratio := 21, colors := colors, compliant := true }
  else
    let ratio := getContrastRatio (colors.getD 0 ⟨0, 0, 0⟩) (colors.getD 1 ⟨0, 0, 0⟩)
    let score := uiContrastViolationScore ratio
    { score := score, ratio := ratio, colors := colors
      compliant := decide (3.0 ≤ ratio) }

/-- The block origins `0, blockSize, 2*blockSize, … < len` of the grid
loops (`for (y = 0; y < height; y += blockSize)`). -/
def blockOrigins (len blockSize : ℕ) : List ℕ :=
  (List.range ((len + blockSize - 1) / blockSize)).map (fun i => i * blockSize)

/-- `gridAnalysis` (contrastAnalyzer.ts lines 145–168): scan block
origins row-major, clamp the block to the bitmap, skip blocks narrower
or shorter than 4, analyze the rest, and emit only non-compliant
results with the origin attached. -/
noncomputable def gridAnalysis (img : ImageData) (blockSize : ℕ) :
    List AnalysisResult :=
  (blockOrigins img.height blockSize).flatMap (fun y =>
    (blockOrigins img.width blockSize).filterMap (fun x =>
      let w := min blockSize (img.width - x)
      let h := min blockSize (img.height - y)
      if w < 4 ∨ h < 4 then none
      else
        let regionResult := analyzeUIRegion img x y w h
        if regionResult.compliant then none
        else some { toRegionResult := regionResult, x := x, y := y }))

/-- The filtering step of `filterAndRedrawWarnings` (`src/popup.js`
line 222): keep warnings with `warning.ratio >= currentThreshold`.
Only the pure list transformation is embedded; the subsequent canvas
redraw is presentation glue. -/
noncomputable def filterAndRedrawWarnings (allWarnings : List AnalysisResult)
    (currentThreshold : ℝ) : List AnalysisResult :=
  allWarnings.filter (fun warning => decide (currentThreshold ≤ warning.ratio))

/-- `filteredResults` (`src/components/AnalysisDisplay.tsx` lines
53–56): keep results with `result.ratio < contrastThreshold`. -/
noncomputable def filteredResults (results : List AnalysisResult)
    (contrastThreshold : ℝ) : List AnalysisResult :=
  results.filter (fun result => decide (result.ratio < contrastThreshold))

/-! ## Helper lemmas about the Contrast Evaluator -/

lemma sRGBToLinear_nonneg (ch : ℕ) : 0 ≤ sRGBToLinear ch := by
  simp only [sRGBToLinear]
  have hc : (0 : ℝ) ≤ (ch : ℝ) / 255 := by positivity
  split_ifs
  · positivity
  · exact Real.rpow_nonneg (by positivity) _

lemma sRGBToLinear_le_one (ch : ℕ) (h : ch ≤ 255) : sRGBToLinear ch ≤ 1 := by
  simp only [sRGBToLinear]
  have hc : ((ch : ℝ)) / 255 ≤ 1 := by
    rw [div_le_one (by norm_num)]
    exact_mod_cast h
  have hc0 : (0 : ℝ) ≤ (ch : ℝ) / 255 := by positivity
  split_ifs with hbr
  · rw [div_le_one (by norm_num)]
    linarith
  · exact Real.rpow_le_one (by positivity) (by rw [div_le_one (by norm_num)]; linarith)
      (by norm_num)

lemma getRelativeLuminance_nonneg (r g b : ℕ) :
    0 ≤ getRelativeLuminance r g b := by
  simp only [getRelativeLuminance]
  have h1 := sRGBToLinear_nonneg r
  have h2 := sRGBToLinear_nonneg g
  have h3 := sRGBToLinear_nonneg b
  linarith

lemma getRelativeLuminance_le_one (r g b : ℕ) (hr : r ≤ 255) (hg : g ≤ 255)
    (hb : b ≤ 255) : getRelativeLuminance r g b ≤ 1 := by
  simp only [getRelativeLuminance]
  have h1 := sRGBToLinear_le_one r hr
  have h2 := sRGBToLinear_le_one g hg
  have h3 := sRGBToLinear_le_one b hb
  linarith

lemma uiContrastViolationScore_nonneg (ratio : ℝ) :
    0 ≤ uiContrastViolationScore ratio := by
  simp only [uiContrastViolationScore]
  split_ifs
  · norm_num
  · norm_num
  · have := Real.neg_one_le_cos (Real.pi * ((ratio - 1.0) / (3.0 - 1.0)))
    linarith

lemma uiContrastViolationScore_le_one (ratio : ℝ) :
    uiContrastViolationScore ratio ≤ 1 := by
  simp only [uiContrastViolationScore]
  split_ifs
  · norm_num
  · norm_num
  · have := Real.cos_le_one (Real.pi * ((ratio - 1.0) / (3.0 - 1.0)))
    linarith

lemma uiContrastViolationScore_anti {a b : ℝ} (ha : 1 ≤ a) (hab : a ≤ b)
    (hb3 : b ≤ 3) : uiContrastViolationScore b ≤ uiContrastViolationScore a := by
  by_cases h3b : (3.0 : ℝ) ≤ b
  · have hb : uiContrastViolationScore b = 0 := by
      simp only [uiContrastViolationScore]; rw [if_pos h3b]
    rw [hb]
    exact uiContrastViolationScore_nonneg a
  · by_cases hb1 : b ≤ (1.0 : ℝ)
    · have ha1 : a ≤ (1.0 : ℝ) := le_trans hab hb1
      have heqb : uiContrastViolationScore b = 1.0 := by
        simp only [uiContrastViolationScore]; rw [if_neg h3b, if_pos hb1]
      have heqa : uiContrastViolationScore a = 1.0 := by
        simp only [uiContrastViolationScore]
        rw [if_neg (by norm_num at h3b ⊢; linarith), if_pos ha1]
      rw [heqa, heqb]
    · have hsb : uiContrastViolationScore b
          = 0.5 * (1 + Real.cos (Real.pi * ((b - 1.0) / (3.0 - 1.0)))) := by
        simp only [uiContrastViolationScore]; rw [if_neg h3b, if_neg hb1]
      by_cases ha1 : a ≤ (1.0 : ℝ)
      · have heqa : uiContrastViolationScore a = 1.0 := by
          simp only [uiContrastViolationScore]
          rw [if_neg (by norm_num; linarith), if_pos ha1]
        rw [heqa, hsb]
        have := Real.cos_le_one (Real.pi * ((b - 1.0) / (3.0 - 1.0)))
        linarith
      · have h3a : ¬ (3.0 : ℝ) ≤ a := by norm_num at h3b ⊢; linarith
        have hsa : uiContrastViolationScore a
            = 0.5 * (1 + Real.cos (Real.pi * ((a - 1.0) / (3.0 - 1.0)))) := by
          simp only [uiContrastViolationScore]; rw [if_neg h3a, if_neg ha1]
        rw [hsa, hsb]
        have hcos : Real.cos (Real.pi * ((b - 1.0) / (3.0 - 1.0)))
            ≤ Real.cos (Real.pi * ((a - 1.0) / (3.0 - 1.0))) := by
          apply Real.cos_le_cos_of_nonneg_of_le_pi
          · have hta : (0 : ℝ) ≤ (a - 1.0) / (3.0 - 1.0) := by
              apply div_nonneg (by linarith) (by norm_num)
            positivity
          · have htb : (b - 1.0) / (3.0 - 1.0) ≤ 1 := by
              rw [div_le_one (by norm_num)]; linarith
            calc Real.pi * ((b - 1.0) / (3.0 - 1.0)) ≤ Real.pi * 1 :=
                  mul_le_mul_of_nonneg_left htb Real.pi_pos.le
              _ = Real.pi := mul_one _
          · apply mul_le_mul_of_nonneg_left _ Real.pi_pos.le
            apply div_le_div_of_nonneg_right _ (by norm_num)
            linarith
        linarith

/-! ## Claim theorems: Contrast Evaluator -/

/-- C5: `uiContrastViolationScore` returns `0` for every ratio ≥ 3.0,
returns `1.0` for every ratio ≤ 1.0, equals the cosine interpolation
`0.5*(1+cos(π*t))` with `t = (ratio-1.0)/(3.0-1.0)` in between, and is
monotonically non-increasing as the ratio increases over `[1, 3]`. -/
theorem severityScore_spec :
    (∀ ratio : ℝ, 3.0 ≤ ratio → uiContrastViolationScore ratio = 0) ∧
    (∀ ratio : ℝ, ratio ≤ 1.0 → uiContrastViolationScore ratio = 1.0) ∧
    (∀ ratio : ℝ, 1.0 < ratio → ratio < 3.0 →
      uiContrastViolationScore ratio
        = 0.5 * (1 + Real.cos (Real.pi * ((ratio - 1.0) / (3.0 - 1.0))))) ∧
    (∀ a b : ℝ, 1 ≤ a → a ≤ b → b ≤ 3 →
      uiContrastViolationScore b ≤ uiContrastViolationScore a) := by
  refine ⟨fun ratio h => ?_, fun ratio h => ?_, fun ratio h1 h3 => ?_,
    fun a b ha hab hb3 => uiContrastViolationScore_anti ha hab hb3⟩
  · simp only [uiContrastViolationScore]; rw [if_pos h]
  · simp only [uiContrastViolationScore]
    rw [if_neg (by norm_num; linarith), if_pos h]
  · simp only [uiContrastViolationScore]
    rw [if_neg (by norm_num; linarith), if_neg (by norm_num; linarith)]

/-- Witness for C5 at concrete ratios 3, 1, 2 and the pair (1, 3). -/
theorem severityScore_spec_witness :
    uiContrastViolationScore 3.0 = 0 ∧ uiContrastViolationScore 1.0 = 1.0 ∧
    uiContrastViolationScore 2
      = 0.5 * (1 + Real.cos (Real.pi * ((2 - 1.0) / (3.0 - 1.0)))) ∧
    uiContrastViolationScore 3 ≤ uiContrastViolationScore 1 :=
  ⟨severityScore_spec.1 3.0 (by norm_num),
   severityScore_spec.2.1 1.0 (by norm_num),
   severityScore_spec.2.2.1 2 (by norm_num) (by norm_num),
   severityScore_spec.2.2.2 1 3 (by norm_num) (by norm_num) (by norm_num)⟩

/-- C6: for componentwise-equal colors, `getContrastRatio` returns
exactly 21. -/
theorem contrastRatio_identical (c1 c2 : RGBColor) (hr : c1.r = c2.r)
    (hg : c1.g = c2.g) (hb : c1.b = c2.b) : getContrastRatio c1 c2 = 21 := by
  simp only [getContrastRatio]
  rw [if_pos ⟨hr, hg, hb⟩]

/-- Witness for C6 at the concrete color (12, 34, 56). -/
theorem contrastRatio_identical_witness :
    getContrastRatio ⟨12, 34, 56⟩ ⟨12, 34, 56⟩ = 21 :=
  contrastRatio_identical ⟨12, 34, 56⟩ ⟨12, 34, 56⟩ rfl rfl rfl

/-- C7: for colors with integer channels in [0, 255],
`getContrastRatio` lies in the interval [1, 21]. -/
theorem contrastRatio_bounds (c1 c2 : RGBColor) (h1r : c1.r ≤ 255)
    (h1g : c1.g ≤ 255) (h1b : c1.b ≤ 255) (h2r : c2.r ≤ 255)
    (h2g : c2.g ≤ 255) (h2b : c2.b ≤ 255) :
    1 ≤ getContrastRatio c1 c2 ∧ getContrastRatio c1 c2 ≤ 21 := by
  simp only [getContrastRatio]
  split_ifs with h
  · norm_num
  · have hl1_0 := getRelativeLuminance_nonneg c1.r c1.g c1.b
    have hl2_0 := getRelativeLuminance_nonneg c2.r c2.g c2.b
    have hl1_1 := getRelativeLuminance_le_one c1.r c1.g c1.b h1r h1g h1b
    have hl2_1 := getRelativeLuminance_le_one c2.r c2.g c2.b h2r h2g h2b
    set l1 := getRelativeLuminance c1.r c1.g c1.b with hl1
    set l2 := getRelativeLuminance c2.r c2.g c2.b with hl2
    have hmin0 : 0 ≤ min l1 l2 := le_min hl1_0 hl2_0
    have hmax1 : max l1 l2 ≤ 1 := max_le hl1_1 hl2_1
    have hminmax : min l1 l2 ≤ max l1 l2 := min_le_max
    have hdpos : (0 : ℝ) < min l1 l2 + 0.05 := by linarith
    constructor
    · rw [one_le_div hdpos]
      linarith
    · rw [div_le_iff₀ hdpos]
      linarith

/-- Witness for C7 at black versus white. -/
theorem contrastRatio_bounds_witness :
    1 ≤ getContrastRatio ⟨0, 0, 0⟩ ⟨255, 255, 255⟩ ∧
    getContrastRatio ⟨0, 0, 0⟩ ⟨255, 255, 255⟩ ≤ 21 :=
  contrastRatio_bounds ⟨0, 0, 0⟩ ⟨255, 255, 255⟩ (by norm_num) (by norm_num)
    (by norm_num) (by norm_num) (by norm_num) (by norm_num)

/-- C8: `simpleKMeans` returns its input unchanged whenever
`colors.length ≤ k`. -/
theorem simpleKMeans_short_input (colors : List RGBColor) (k : ℕ)
    (h : colors.length ≤ k) : simpleKMeans colors k = colors := by
  simp only [simpleKMeans]
  rw [if_pos h]

/-- Witness for C8 on a concrete two-element list with k = 2. -/
theorem simpleKMeans_short_input_witness :
    simpleKMeans [⟨1, 2, 3⟩, ⟨4, 5, 6⟩] 2 = [⟨1, 2, 3⟩, ⟨4, 5, 6⟩] :=
  simpleKMeans_short_input [⟨1, 2, 3⟩, ⟨4, 5, 6⟩] 2 (by decide)

/-! ## Helper lemmas about the Color Sampler -/

lemma mem_sampledPixelIndices {img : ImageData} {x y w h idx : ℕ}
    (hmem : idx ∈ sampledPixelIndices img x y w h) :
    ∃ px py : ℕ, px < img.width ∧ py < img.height ∧
      idx = pixelIndex img px py := by
  simp only [sampledPixelIndices, List.mem_flatMap, List.mem_filterMap] at hmem
  obtain ⟨dy, -, dx, -, hsome⟩ := hmem
  by_cases hout : img.width ≤ x + dx ∨ img.height ≤ y + dy
  · rw [if_pos hout] at hsome
    exact absurd hsome (by simp)
  · rw [if_neg hout] at hsome
    push_neg at hout
    exact ⟨x + dx, y + dy, hout.1, hout.2, (Option.some_injective _ hsome).symm⟩

lemma zero_mem_sampleOffsets {n : ℕ} (hn : 1 ≤ n) : 0 ∈ sampleOffsets n := by
  simp only [sampleOffsets, List.mem_map, List.mem_range]
  exact ⟨0, by omega, rfl⟩

lemma sampleOffsets_zero : sampleOffsets 0 = [] := rfl

lemma kmeansStep_length (k : ℕ) (colors centroids : List RGBColor) :
    (kmeansStep k colors centroids).length = k := by
  simp [kmeansStep]

lemma kmeansIter_length (k : ℕ) (colors : List RGBColor) (fuel : ℕ)
    (centroids : List RGBColor) (h : centroids.length = k) :
    (kmeansIter k colors fuel centroids).length = k := by
  induction fuel generalizing centroids with
  | zero => simpa [kmeansIter] using h
  | succ n ih =>
      rw [kmeansIter]
      split
      · exact h
      · exact ih _ (kmeansStep_length k colors centroids)

lemma simpleKMeans_length_le (colors : List RGBColor) (k : ℕ) :
    (simpleKMeans colors k).length ≤ k := by
  simp only [simpleKMeans]
  split_ifs with h
  · exact h
  · rw [kmeansIter_length k colors 10 (colors.take k)
      (by simp [List.length_take]; omega)]

lemma simpleKMeans_ne_nil (colors : List RGBColor) (k : ℕ)
    (hc : colors ≠ []) (hk : 1 ≤ k) : simpleKMeans colors k ≠ [] := by
  simp only [simpleKMeans]
  split_ifs with h
  · exact hc
  · intro hnil
    have := kmeansIter_length k colors 10 (colors.take k)
      (by simp [List.length_take]; omega)
    rw [hnil] at this
    simp at this
    omega

/-! ## Claim theorems: Color Sampler -/

/-- A concrete 1×1 bitmap holding the single pixel (7, 8, 9, 255). -/
def cexImg : ImageData := ⟨1, 1, [7, 8, 9, 255]⟩

/-- Counterexample to C3: the in-bounds region (0, 0, 1, 1) of a 1×1
bitmap has width and height less than 2, yet the Color Sampler returns
one sampled color, not an empty sequence (the stride-2 loops both run
once at offset 0). -/
theorem sampler_degenerate_cex :
    (1 : ℕ) < 2 ∧ 0 + 1 ≤ cexImg.width ∧ 0 + 1 ≤ cexImg.height ∧
      extractDominantColors cexImg 0 0 1 1 2 = [⟨7, 8, 9⟩] ∧
      extractDominantColors cexImg 0 0 1 1 2 ≠ [] := by decide

/-- C3 amended: the Color Sampler returns an empty sequence when the
region width or height is zero; conversely, an in-bounds region with
width, height (and cluster count) at least 1 always yields a nonempty
sequence — so a 1×1 region is not degenerate. -/
theorem sampler_empty_amended (img : ImageData) (x y w h k : ℕ) :
    (w = 0 ∨ h = 0 → extractDominantColors img x y w h k = []) ∧
    (x + w ≤ img.width → y + h ≤ img.height → 1 ≤ w → 1 ≤ h → 1 ≤ k →
      extractDominantColors img x y w h k ≠ []) := by
  constructor
  · rintro (rfl | rfl)
    · have h0 : sampledPixelIndices img x y 0 h = [] :=
        List.flatMap_eq_nil_iff.mpr (fun dy _ => rfl)
      simp [extractDominantColors, h0]
    · have h0 : sampledPixelIndices img x y w 0 = [] := rfl
      simp [extractDominantColors, h0]
  · intro hxw hyh hw hh hk
    have hmem : pixelIndex img x y ∈ sampledPixelIndices img x y w h := by
      simp only [sampledPixelIndices, List.mem_flatMap, List.mem_filterMap]
      refine ⟨0, zero_mem_sampleOffsets hh, 0, zero_mem_sampleOffsets hw, ?_⟩
      rw [if_neg (by push_neg; omega)]
      simp
    simp only [extractDominantColors]
    have hne : (sampledPixelIndices img x y w h).map (pixelAt img) ≠ [] := by
      intro hnil
      rw [List.map_eq_nil_iff] at hnil
      rw [hnil] at hmem
      exact absurd hmem (List.not_mem_nil _)
    rw [if_neg (by simpa [List.length_eq_zero] using hne)]
    exact simpleKMeans_ne_nil _ k hne hk

/-- Witness for the amended C3 at concrete degenerate and 1×1 regions
of the 1×1 bitmap. -/
theorem sampler_empty_amended_witness :
    extractDominantColors cexImg 0 0 0 1 2 = [] ∧
    extractDominantColors cexImg 0 0 1 1 2 ≠ [] :=
  ⟨(sampler_empty_amended cexImg 0 0 0 1 2).1 (Or.inl rfl),
   (sampler_empty_amended cexImg 0 0 1 1 2).2 (by decide) (by decide)
     (by decide) (by decide) (by decide)⟩

/-- C10: every buffer index the Color Sampler reads (together with its
`+1` and `+2` offsets for the G and B bytes) is strictly inside a
well-formed RGBA buffer of `4 * width * height` entries, for every
region origin and extent — each candidate pixel is individually
bounds-checked against the bitmap dimensions. -/
theorem sampler_access_in_bounds (img : ImageData) (x y w h idx : ℕ)
    (hmem : idx ∈ sampledPixelIndices img x y w h)
    (hlen : img.data.length = 4 * (img.width * img.height)) :
    idx + 2 < img.data.length := by
  obtain ⟨px, py, hpx, hpy, rfl⟩ := mem_sampledPixelIndices hmem
  rw [hlen]
  have hkey : py * img.width + px < img.width * img.height := by
    calc py * img.width + px < py * img.width + img.width := by omega
      _ = (py + 1) * img.width := by ring
      _ ≤ img.height * img.width := Nat.mul_le_mul_right _ (by omega)
      _ = img.width * img.height := Nat.mul_comm _ _
  simp only [pixelIndex]
  omega

/-- Witness for C10: the single sampled index of the 1×1 bitmap. -/
theorem sampler_access_in_bounds_witness :
    (0 : ℕ) + 2 < cexImg.data.length :=
  sampler_access_in_bounds cexImg 0 0 1 1 0 (by decide) (by decide)

/-! ## Helper lemmas about the Grid Analyzer -/

lemma getContrastRatio_same (c : RGBColor) : getContrastRatio c c = 21 := by
  simp [getContrastRatio]

lemma extractDominantColors_length_le (img : ImageData) (x y w h k : ℕ) :
    (extractDominantColors img x y w h k).length ≤ k := by
  simp only [extractDominantColors]
  split_ifs with h0
  · simp
  · exact simpleKMeans_length_le _ _

lemma analyzeUIRegion_not_compliant {img : ImageData} {x y w h : ℕ}
    (hc : (analyzeUIRegion img x y w h).compliant = false) :
    (analyzeUIRegion img x y w h).colors.length = 2 ∧
    (analyzeUIRegion img x y w h).ratio < 3.0 := by
  have hle := extractDominantColors_length_le img x y w h 2
  simp only [analyzeUIRegion] at hc ⊢
  split_ifs at hc ⊢ with hlen
  constructor
  · show (extractDominantColors img x y w h 2).length = 2
    omega
  · show getContrastRatio ((extractDominantColors img x y w h 2).getD 0 ⟨0, 0, 0⟩)
      ((extractDominantColors img x y w h 2).getD 1 ⟨0, 0, 0⟩) < 3.0
    simpa [List.getD_eq_getElem?_getD] using hc

lemma mem_gridAnalysis {img : ImageData} {bs : ℕ} {res : AnalysisResult}
    (hmem : res ∈ gridAnalysis img bs) :
    ∃ x y w h : ℕ, res.toRegionResult = analyzeUIRegion img x y w h ∧
      (analyzeUIRegion img x y w h).compliant = false := by
  simp only [gridAnalysis, List.mem_flatMap, List.mem_filterMap] at hmem
  obtain ⟨y, -, x, -, hsome⟩ := hmem
  by_cases hwh : min bs (img.width - x) < 4 ∨ min bs (img.height - y) < 4
  · rw [if_pos hwh] at hsome
    exact absurd hsome (by simp)
  · rw [if_neg hwh] at hsome
    by_cases hcomp :
        (analyzeUIRegion img x y (min bs (img.width - x))
          (min bs (img.height - y))).compliant
    · rw [if_pos hcomp] at hsome
      exact absurd hsome (by simp)
    · rw [if_neg hcomp] at hsome
      have heq := Option.some_injective _ hsome
      refine ⟨x, y, min bs (img.width - x), min bs (img.height - y), ?_,
        Bool.eq_false_iff.mpr hcomp⟩
      rw [← heq]

/-! ## Claim theorems: Grid Analyzer invariants -/

/-- C2: every `AnalysisResult` returned by `gridAnalysis` has
`compliant = false` and contrast ratio strictly below 3.0; a compliant
block is never emitted. -/
theorem gridAnalysis_noncompliant (img : ImageData) (blockSize : ℕ)
    (res : AnalysisResult) (hmem : res ∈ gridAnalysis img blockSize) :
    res.compliant = false ∧ res.ratio < 3.0 := by
  obtain ⟨x, y, w, h, heq, hcomp⟩ := mem_gridAnalysis hmem
  have h2 := analyzeUIRegion_not_compliant hcomp
  constructor
  · show res.toRegionResult.compliant = false
    rw [heq]; exact hcomp
  · show res.toRegionResult.ratio < 3.0
    rw [heq]; exact h2.2

/-- C9: every `AnalysisResult` emitted by `gridAnalysis` carries
exactly two dominant colors. -/
theorem gridAnalysis_colors_length (img : ImageData) (blockSize : ℕ)
    (res : AnalysisResult) (hmem : res ∈ gridAnalysis img blockSize) :
    res.colors.length = 2 := by
  obtain ⟨x, y, w, h, heq, hcomp⟩ := mem_gridAnalysis hmem
  have h2 := analyzeUIRegion_not_compliant hcomp
  show res.toRegionResult.colors.length = 2
  rw [heq]; exact h2.1

/-! ## Helper lemmas for uniform bitmaps -/

lemma sqDist_self (c : RGBColor) : sqDist c c = 0 := by
  simp [sqDist]

lemma closestClusterAux_const (c : RGBColor) (l : List RGBColor)
    (hl : ∀ a ∈ l, a = c) :
    ∀ i best : ℕ, closestClusterAux c l i best 0 = best := by
  induction l with
  | nil => intro i best; rfl
  | cons a rest ih =>
      intro i best
      have ha : a = c := hl a (List.mem_cons_self a rest)
      rw [closestClusterAux]
      simp only [ha, sqDist_self, lt_irrefl, if_neg (lt_irrefl 0)]
      exact ih (fun b hb => hl b (List.mem_cons_of_mem a hb)) (i + 1) best

lemma closestCluster_const (c : RGBColor) (centroids : List RGBColor)
    (h : ∀ a ∈ centroids, a = c) : closestCluster c centroids = 0 := by
  cases centroids with
  | nil => rfl
  | cons a rest =>
      have ha : a = c := h a (List.mem_cons_self a rest)
      rw [closestCluster, ha, sqDist_self]
      exact closestClusterAux_const c rest
        (fun b hb => h b (List.mem_cons_of_mem a hb)) 1 0

lemma roundDiv_mul (n v : ℕ) (hn : 0 < n) : roundDiv (n * v) n = v := by
  unfold roundDiv
  rw [show 2 * (n * v) + n = n * (2 * v + 1) by ring,
    show 2 * n = n * 2 by ring, Nat.mul_div_mul_left _ _ hn]
  omega

lemma kmeansStep_all_eq (k : ℕ) (colors centroids : List RGBColor)
    (c : RGBColor) (hcolors : ∀ a ∈ colors, a = c)
    (hlen : centroids.length = k) (hcent : ∀ a ∈ centroids, a = c) :
    ∀ a ∈ kmeansStep k colors centroids, a = c := by
  intro a ha
  simp only [kmeansStep, List.mem_map, List.mem_range] at ha
  obtain ⟨i, hik, hbody⟩ := ha
  by_cases hemp : (clusterOf colors centroids i).length = 0
  · rw [if_pos hemp] at hbody
    rw [← hbody, List.getD_eq_getElem?_getD,
      List.getElem?_eq_getElem (by omega : i < centroids.length)]
    exact hcent _ (List.getElem_mem _)
  · rw [if_neg hemp] at hbody
    have hsub : ∀ b ∈ clusterOf colors centroids i, b = c :=
      fun b hb => hcolors b (List.mem_of_mem_filter hb)
    have hrep : clusterOf colors centroids i
        = List.replicate (clusterOf colors centroids i).length c :=
      List.eq_replicate_of_mem hsub
    have hpos : 0 < (clusterOf colors centroids i).length := Nat.pos_of_ne_zero hemp
    have hsum : ∀ f : RGBColor → ℕ,
        ((clusterOf colors centroids i).map f).sum
          = (clusterOf colors centroids i).length * f c := by
      intro f
      conv_lhs => rw [hrep]
      simp [List.map_replicate, List.sum_replicate, smul_eq_mul]
    rw [← hbody]
    obtain ⟨cr, cg, cb⟩ := c
    simp only [hsum, roundDiv_mul _ _ hpos]

lemma kmeansIter_all_eq (k : ℕ) (colors : List RGBColor) (c : RGBColor)
    (hcolors : ∀ a ∈ colors, a = c) :
    ∀ (fuel : ℕ) (centroids : List RGBColor), centroids.length = k →
      (∀ a ∈ centroids, a = c) →
      ∀ a ∈ kmeansIter k colors fuel centroids, a = c := by
  intro fuel
  induction fuel with
  | zero => intro centroids _ hcent; exact hcent
  | succ n ih =>
      intro centroids hlen hcent
      rw [kmeansIter]
      split
      · exact hcent
      · exact ih (kmeansStep k colors centroids) (kmeansStep_length k colors centroids)
          (kmeansStep_all_eq k colors centroids c hcolors hlen hcent)

lemma simpleKMeans_all_eq (colors : List RGBColor) (k : ℕ) (c : RGBColor)
    (hcolors : ∀ a ∈ colors, a = c) :
    ∀ a ∈ simpleKMeans colors k, a = c := by
  simp only [simpleKMeans]
  split_ifs with hlk
  · exact hcolors
  · exact kmeansIter_all_eq k colors c hcolors 10 (colors.take k)
      (by simp [List.length_take]; omega)
      (fun a ha => hcolors a (List.mem_of_mem_take ha))

lemma extractDominantColors_all_eq (img : ImageData) (x y w h k : ℕ)
    (c : RGBColor)
    (hu : ∀ px py : ℕ, px < img.width → py < img.height →
      pixelAt img (pixelIndex img px py) = c) :
    ∀ a ∈ extractDominantColors img x y w h k, a = c := by
  simp only [extractDominantColors]
  split_ifs with h0
  · simp
  · apply simpleKMeans_all_eq
    intro a ha
    rw [List.mem_map] at ha
    obtain ⟨idx, hidx, rfl⟩ := ha
    obtain ⟨px, py, hpx, hpy, rfl⟩ := mem_sampledPixelIndices hidx
    exact hu px py hpx hpy

lemma analyzeUIRegion_uniform (img : ImageData) (x y w h : ℕ) (c : RGBColor)
    (hu : ∀ px py : ℕ, px < img.width → py < img.height →
      pixelAt img (pixelIndex img px py) = c) :
    (analyzeUIRegion img x y w h).compliant = true := by
  have hall := extractDominantColors_all_eq img x y w h 2 c hu
  simp only [analyzeUIRegion]
  split_ifs with hlen
  · rfl
  · show decide ((3.0 : ℝ) ≤
      getContrastRatio ((extractDominantColors img x y w h 2).getD 0 ⟨0, 0, 0⟩)
        ((extractDominantColors img x y w h 2).getD 1 ⟨0, 0, 0⟩)) = true
    push_neg at hlen
    have h0 : (extractDominantColors img x y w h 2).getD 0 ⟨0, 0, 0⟩ = c := by
      rw [List.getD_eq_getElem?_getD, List.getElem?_eq_getElem (by omega)]
      exact hall _ (List.getElem_mem _)
    have h1 : (extractDominantColors img x y w h 2).getD 1 ⟨0, 0, 0⟩ = c := by
      rw [List.getD_eq_getElem?_getD, List.getElem?_eq_getElem (by omega)]
      exact hall _ (List.getElem_mem _)
    rw [h0, h1, getContrastRatio_same]
    exact decide_eq_true (by norm_num)

/-- C4: a bitmap all of whose pixels are one single RGB color produces
an empty result sequence: every analyzed block clusters to copies of
that color, gets contrast ratio 21, and is treated as compliant, so
nothing is emitted. -/
theorem gridAnalysis_uniform (img : ImageData) (c : RGBColor) (blockSize : ℕ)
    (_hbs : 0 < blockSize)
    (hu : ∀ px py : ℕ, px < img.width → py < img.height →
      pixelAt img (pixelIndex img px py) = c) :
    gridAnalysis img blockSize = [] := by
  simp only [gridAnalysis]
  rw [List.flatMap_eq_nil_iff]
  intro y hy
  rw [List.filterMap_eq_nil_iff]
  intro x hx
  by_cases hwh : min blockSize (img.width - x) < 4 ∨ min blockSize (img.height - y) < 4
  · exact if_pos hwh
  · rw [if_neg hwh, analyzeUIRegion_uniform img x y _ _ c hu]
    rfl

/-! ## Concrete bitmaps for the Grid Analyzer witnesses -/

/-- A 4×4 bitmap whose left half is black and right half is the dark
gray (10, 10, 10): the two dominant colors have a contrast ratio just
above 1, well below 3, so its single 4×4 block is emitted. -/
def imgW : ImageData := ⟨4, 4,
  [0, 0, 0, 255, 0, 0, 0, 255, 10, 10, 10, 255, 10, 10, 10, 255,
   0, 0, 0, 255, 0, 0, 0, 255, 10, 10, 10, 255, 10, 10, 10, 255,
   0, 0, 0, 255, 0, 0, 0, 255, 10, 10, 10, 255, 10, 10, 10, 255,
   0, 0, 0, 255, 0, 0, 0, 255, 10, 10, 10, 255, 10, 10, 10, 255]⟩

def colB : RGBColor := ⟨0, 0, 0⟩

def colG : RGBColor := ⟨10, 10, 10⟩

/-- The contrast ratio between black and the dark gray (10, 10, 10). -/
noncomputable def ratioW : ℝ := getContrastRatio colB colG

/-- The single analysis result `gridAnalysis imgW 4` emits. -/
noncomputable def resW : AnalysisResult :=
  { score := uiContrastViolationScore ratioW, ratio := ratioW,
    colors := [colB, colG], compliant := false, x := 0, y := 0 }

lemma sRGBToLinear_zero : sRGBToLinear 0 = 0 := by
  simp only [sRGBToLinear]
  rw [if_pos (by norm_num)]
  norm_num

lemma sRGBToLinear_ten : sRGBToLinear 10 = (10 / 255) / 12.92 := by
  simp only [sRGBToLinear]
  rw [if_pos (by norm_num)]

lemma lumB_eq : getRelativeLuminance (colB.r : ℝ) (colB.g : ℝ) (colB.b : ℝ) = 0 := by
  have h : ((colB.r : ℕ) : ℝ) = 0 := by norm_num [colB]
  simp only [getRelativeLuminance, colB]
  norm_num [sRGBToLinear_zero]

lemma lumG_eq : getRelativeLuminance (colG.r : ℝ) (colG.g : ℝ) (colG.b : ℝ)
    = (10 / 255) / 12.92 := by
  simp only [getRelativeLuminance, colG]
  norm_num [sRGBToLinear_ten]

lemma ratioW_eq : ratioW = ((10 / 255) / 12.92 + 0.05) / (0 + 0.05) := by
  have hne : ¬(colB.r = colG.r ∧ colB.g = colG.g ∧ colB.b = colG.b) := by decide
  have hL : (0 : ℝ) ≤ (10 / 255) / 12.92 := by norm_num
  simp only [ratioW, getContrastRatio]
  rw [if_neg hne, lumB_eq, lumG_eq, max_eq_right hL, min_eq_left hL]

lemma ratioW_lt_three : ratioW < 3.0 := by
  rw [ratioW_eq]
  norm_num

lemma analyzeW : analyzeUIRegion imgW 0 0 4 4 = resW.toRegionResult := by
  have hext : extractDominantColors imgW 0 0 4 4 2 = [colB, colG] := by decide
  simp only [analyzeUIRegion, hext]
  rw [if_neg (by decide)]
  have hgd0 : [colB, colG].getD 0 ⟨0, 0, 0⟩ = colB := rfl
  have hgd1 : [colB, colG].getD 1 ⟨0, 0, 0⟩ = colG := rfl
  rw [hgd0, hgd1]
  have hr : getContrastRatio colB colG = ratioW := rfl
  rw [hr]
  simp only [resW, RegionResult.mk.injEq, true_and, and_true]
  exact decide_eq_false (not_le.mpr ratioW_lt_three)

lemma gridW : gridAnalysis imgW 4 = [resW] := by
  have h1 : blockOrigins imgW.height 4 = [0] := by decide
  have h2 : blockOrigins imgW.width 4 = [0] := by decide
  simp only [gridAnalysis, h1, h2, List.flatMap_cons, List.flatMap_nil,
    List.filterMap_cons, List.filterMap_nil, List.append_nil]
  have hmin : min 4 (imgW.width - 0) = 4 := by decide
  have hmin2 : min 4 (imgW.height - 0) = 4 := by decide
  rw [hmin, hmin2, if_neg (by norm_num), analyzeW]
  rfl

/-- Witness for C2: the block emitted for the concrete half-black,
half-gray bitmap is non-compliant with ratio below 3. -/
theorem gridAnalysis_noncompliant_witness :
    resW.compliant = false ∧ resW.ratio < 3.0 :=
  gridAnalysis_noncompliant imgW 4 resW
    (by rw [gridW]; exact List.mem_singleton_self resW)

/-- Witness for C9: the emitted block of the concrete bitmap carries
exactly two colors. -/
theorem gridAnalysis_colors_length_witness : resW.colors.length = 2 :=
  gridAnalysis_colors_length imgW 4 resW
    (by rw [gridW]; exact List.mem_singleton_self resW)

/-- A 4×4 bitmap every pixel of which is the single color (5, 5, 5). -/
def imgU : ImageData := ⟨4, 4,
  [5, 5, 5, 255, 5, 5, 5, 255, 5, 5, 5, 255, 5, 5, 5, 255,
   5, 5, 5, 255, 5, 5, 5, 255, 5, 5, 5, 255, 5, 5, 5, 255,
   5, 5, 5, 255, 5, 5, 5, 255, 5, 5, 5, 255, 5, 5, 5, 255,
   5, 5, 5, 255, 5, 5, 5, 255, 5, 5, 5, 255, 5, 5, 5, 255]⟩

/-- Witness for C4: the uniform 4×4 bitmap with blockSize 4 yields no
results. -/
theorem gridAnalysis_uniform_witness : gridAnalysis imgU 4 = [] :=
  gridAnalysis_uniform imgU ⟨5, 5, 5⟩ 4 (by norm_num)
    (by intro px py hpx hpy
        have hpx4 : px < 4 := hpx
        have hpy4 : py < 4 := hpy
        interval_cases px <;> interval_cases py <;> decide)

/-! ## Claim theorems: Threshold Filter -/

/-- A concrete emitted-style record with contrast ratio 2 (a genuine
violation, since every emitted result has ratio below 3). -/
noncomputable def resLow : AnalysisResult :=
  { score := 0.5, ratio := 2, colors := [], compliant := false, x := 0, y := 0 }

/-- Counterexample to C1: the AnalysisDisplay.tsx threshold filter at
threshold 1.5 drops the record with ratio 2 even though its ratio is
greater than or equal to the threshold, so that filter is not the
"keep `ratio >= threshold`" subsequence the claim asserts for the
Threshold Filter — it keeps `ratio < threshold` instead. -/
theorem displayFilter_cex :
    (3 / 2 : ℝ) ≤ resLow.ratio ∧ resLow ∈ [resLow] ∧
      filteredResults [resLow] (3 / 2) = [] := by
  have hnot : ¬(resLow.ratio < (3 / 2 : ℝ)) := by norm_num [resLow]
  refine ⟨by norm_num [resLow], List.mem_singleton_self _, ?_⟩
  rw [filteredResults, List.filter_eq_nil_iff]
  intro a ha
  rw [List.mem_singleton] at ha
  subst ha
  simpa using hnot

/-- C1 amended: the popup.js Threshold Filter keeps exactly the
records with `ratio >= threshold` (order preserved), while the
AnalysisDisplay.tsx filter keeps exactly the records with
`ratio < threshold` (order preserved) — the two call sites filter in
opposite directions. -/
theorem thresholdFilters_spec (rs : List AnalysisResult) (t : ℝ) :
    (filterAndRedrawWarnings rs t).Sublist rs ∧
    (∀ r, r ∈ filterAndRedrawWarnings rs t ↔ r ∈ rs ∧ t ≤ r.ratio) ∧
    (filteredResults rs t).Sublist rs ∧
    (∀ r, r ∈ filteredResults rs t ↔ r ∈ rs ∧ r.ratio < t) := by
  refine ⟨List.filter_sublist rs, fun r => ?_, List.filter_sublist rs, fun r => ?_⟩
  · simp [filterAndRedrawWarnings, List.mem_filter]
  · simp [filteredResults, List.mem_filter]

/-- Witness for the amended C1 on the concrete singleton list: the
popup.js filter keeps the ratio-2 record at threshold 1.5 and the
AnalysisDisplay.tsx filter drops it. -/
theorem thresholdFilters_spec_witness :
    (resLow ∈ filterAndRedrawWarnings [resLow] (3 / 2) ↔
      resLow ∈ [resLow] ∧ (3 / 2 : ℝ) ≤ resLow.ratio) ∧
    (resLow ∈ filteredResults [resLow] (3 / 2) ↔
      resLow ∈ [resLow] ∧ resLow.ratio < (3 / 2 : ℝ)) :=
  ⟨(thresholdFilters_spec [resLow] (3 / 2)).2.1 resLow,
   (thresholdFilters_spec [resLow] (3 / 2)).2.2.2 resLow⟩

end ContrastDetective
